import Mathlib

/-!
Verification of the skill-plugin core of the `chimera-agent-factory`
repository: the envelope model (`SkillInput`, `SkillOutput` in
`src/skills/base.py`), the abstract skill contract (`BaseSkill`), the
process-wide registry (`SKILL_REGISTRY` in `src/skills/__init__.py`),
and the execution runtime described by the design document.

The source repository is a TDD skeleton: `src/skills/base.py` defines the
pydantic envelope base classes and the abstract `BaseSkill`, and
`src/skills/__init__.py` defines the empty `SKILL_REGISTRY` dict.  The
registry operations (`register` / `lookup` / `list`), the per-skill schema
validation algorithm and the time-bounded execution runtime (`run`) exist
only as the design document's contract; those are modelled here from the
spec, each such definition marked `Modelled from the spec:` in its doc
comment.  Everything else is translated directly from the Python source.
-/

/-- Runtime values carried in raw input / output records (the subset of
Python/JSON values the envelope schemas of this core use). -/
inductive Value where
  | vBool : Bool → Value
  | vStr : String → Value
  | vInt : Int → Value
deriving DecidableEq, Repr

/-- A raw structured record, as passed to pydantic model construction:
an association of field names to values (Python `dict[str, Any]`). -/
abbrev RawRecord : Type := List (String × Value)

/-- Field access on a raw record, as Python `raw.get(key)`: the first
(and in a Python dict, only) binding of `key`, if any. -/
def lookupField (raw : RawRecord) (key : String) : Option Value :=
  match List.find? (fun p => p.1 == key) raw with
  | some p => some p.2
  | none => none

/-- `SkillOutput` from `src/skills/base.py`: `success: bool` (required)
and `error: str | None` with `default=None`. -/
structure SkillOutput where
  success : Bool
  error : Option String
deriving DecidableEq, Repr

/-- Runtime type tags for declared schema fields. -/
inductive FieldType where
  | tBool
  | tStr
  | tInt
deriving DecidableEq, Repr

/-- The runtime type of a value. -/
def typeOf : Value → FieldType
  | Value.vBool _ => FieldType.tBool
  | Value.vStr _ => FieldType.tStr
  | Value.vInt _ => FieldType.tInt

/-- Pydantic validation of the `SkillOutput` model from
`src/skills/base.py`: `success` is required and must be a bool; `error`
is optional (default `None`) and, when present, must be a string.  No
other check ties `error` to `success`. -/
def SkillOutput.validate (raw : RawRecord) : Except String SkillOutput :=
  match lookupField raw "success" with
  | some (Value.vBool b) =>
    match lookupField raw "error" with
    | some (Value.vStr s) => Except.ok ⟨b, some s⟩
    | some _ => Except.error "error: input should be a valid string"
    | none => Except.ok ⟨b, none⟩
  | some _ => Except.error "success: input should be a valid boolean"
  | none => Except.error "success: field required"

/-- The success/error invariant the design document states for output
envelopes: `success = true` implies `error` is absent or empty, and
`success = false` implies `error` is a non-empty diagnostic string. -/
def outputInvariant (o : SkillOutput) : Bool :=
  if o.success then (o.error == none || o.error == some "")
  else
    match o.error with
    | some s => !(s == "")
    | none => false

/-- The raw record whose `SkillOutput` validation yields the given
`success` and `error` fields (the `error` key present exactly when the
error is). -/
def rawOfOutput (b : Bool) (e : Option String) : RawRecord :=
  match e with
  | some s => [("success", Value.vBool b), ("error", Value.vStr s)]
  | none => [("success", Value.vBool b)]

/-- A declared schema field.  Modelled from the spec: each skill declares
an ordered list of fields, each with a name, a type, a required/optional
marker, a default (used when optional), and a constraint predicate. -/
structure FieldSpec where
  name : String
  ftype : FieldType
  required : Bool
  dflt : Value
  constraint : Value → Bool

/-- Validation failures, naming the offending field.  Modelled from the
spec: `ValidationError` reports the offending field path and violated
rule. -/
inductive ValidationError where
  | missingRequired : String → ValidationError
  | typeMismatch : String → ValidationError
  | constraintViolated : String → ValidationError
deriving DecidableEq, Repr

/-- Modelled from the spec: step 2 of the validation algorithm.  Resolve
a field against the raw record: a present value is used as is; an absent
required field fails; an absent optional field is substituted by its
default. -/
def resolveField (raw : RawRecord) (f : FieldSpec) : Except ValidationError Value :=
  match lookupField raw f.name with
  | some v => Except.ok v
  | none =>
    if f.required then Except.error (ValidationError.missingRequired f.name)
    else Except.ok f.dflt

/-- Modelled from the spec: steps 3 and 4 of the validation algorithm.
Check the resolved value's runtime type against the declared type, then
evaluate the constraint predicate, failing on the first violation. -/
def checkValue (f : FieldSpec) (v : Value) : Except ValidationError Value :=
  if typeOf v == f.ftype then
    if f.constraint v then Except.ok v
    else Except.error (ValidationError.constraintViolated f.name)
  else Except.error (ValidationError.typeMismatch f.name)

/-- Modelled from the spec: validation of one declared field (resolve,
then check). -/
def checkField (raw : RawRecord) (f : FieldSpec) : Except ValidationError Value :=
  match resolveField raw f with
  | Except.ok v => checkValue f v
  | Except.error e => Except.error e

/-- Modelled from the spec: the validation algorithm of section 4.2.
Iterate the declared fields in declaration order, fail fast at the first
failing field, and produce the validated record (declared fields only,
so unknown keys of the raw record are discarded). -/
def validateFields (raw : RawRecord) : List FieldSpec → Except ValidationError (List (String × Value))
  | [] => Except.ok []
  | f :: rest =>
    match checkField raw f with
    | Except.error e => Except.error e
    | Except.ok v =>
      match validateFields raw rest with
      | Except.error e => Except.error e
      | Except.ok vs => Except.ok ((f.name, v) :: vs)

/-- `SkillInput` from `src/skills/base.py`: a pydantic `BaseModel`
subclass whose body is `pass`, so its declared schema is the empty field
list. -/
def SkillInput.schema : List FieldSpec := []

/-- Validation of the base `SkillInput` envelope: pydantic validation of
a model with no declared fields (unknown keys are ignored by default). -/
def SkillInput.validate (raw : RawRecord) : Except ValidationError (List (String × Value)) :=
  validateFields raw SkillInput.schema

/-- Registry failures.  Modelled from the spec: `register` fails with
`DuplicateRegistrationError` on a name collision, `lookup` fails with
`NotFoundError` on an absent name. -/
inductive RegistryError where
  | duplicateRegistration : String → RegistryError
  | notFound : String → RegistryError
deriving DecidableEq, Repr

/-- A registry state: the insertion-ordered name/implementation bindings
of the Python dict (`dict[str, _]` preserves insertion order and holds
each key once). -/
abbrev Registry (α : Type) : Type := List (String × α)

/-- `list()` of the registry: the registered names in registration
order (the dict's key order). -/
def Registry.listNames {α : Type} (r : Registry α) : List String :=
  List.map Prod.fst r

/-- Modelled from the spec: `register(name, implementation)` fails with
`DuplicateRegistrationError` if `name` is already present, otherwise
stores the mapping (appended in registration order, as a Python dict
insertion). -/
def Registry.register {α : Type} (r : Registry α) (n : String) (impl : α) :
    Except RegistryError (Registry α) :=
  if (Registry.listNames r).contains n then
    Except.error (RegistryError.duplicateRegistration n)
  else Except.ok (r ++ [(n, impl)])

/-- The registry state after a `register` call: the new state on
success, the untouched original state when registration failed. -/
def Registry.registerState {α : Type} (r : Registry α) (n : String) (impl : α) : Registry α :=
  match Registry.register r n impl with
  | Except.ok r2 => r2
  | Except.error _ => r

/-- Modelled from the spec: `lookup(name)` fails with `NotFoundError` if
`name` is absent, otherwise returns the stored implementation. -/
def Registry.lookup {α : Type} (r : Registry α) (n : String) : Except RegistryError α :=
  match List.find? (fun p => p.1 == n) r with
  | some p => Except.ok p.2
  | none => Except.error (RegistryError.notFound n)

/-- The registry state reached from `r` by a sequence of `register`
calls, `none` when some call in the sequence failed. -/
def registerAll {α : Type} (r : Registry α) : List (String × α) → Option (Registry α)
  | [] => some r
  | (n, impl) :: rest =>
    match Registry.register r n impl with
    | Except.ok r2 => registerAll r2 rest
    | Except.error _ => none

/-- A Python class as the abstract-base-class machinery sees it: its
name and its set of unimplemented abstract methods
(`__abstractmethods__`). -/
structure PyClass where
  pyName : String
  abstractMethods : List String
deriving DecidableEq, Repr

/-- An instance of a Python class. -/
structure PyInstance where
  cls : PyClass
deriving DecidableEq, Repr

/-- Python runtime errors relevant here. -/
inductive PyError where
  | typeError : String → PyError
deriving DecidableEq, Repr

/-- `BaseSkill` from `src/skills/base.py`: an `ABC` subclass whose only
`@abstractmethod` is `execute`, so `__abstractmethods__` is
`{"execute"}`. -/
def BaseSkill : PyClass := ⟨"BaseSkill", ["execute"]⟩

/-- Python instantiation `C()` under `ABCMeta`: raises `TypeError` when
the class still has unimplemented abstract methods, otherwise builds the
instance. -/
def instantiate (c : PyClass) : Except PyError PyInstance :=
  if c.abstractMethods.isEmpty then Except.ok ⟨c⟩
  else
    Except.error (PyError.typeError
      ("Cannot instantiate abstract class " ++ c.pyName ++ " with abstract method "
        ++ String.intercalate ", " c.abstractMethods))

/-- A subclass of `parent` that overrides the methods in `overrides`:
its remaining abstract methods are the parent's minus the overridden
ones. -/
def subclassOf (parent : PyClass) (n : String) (overrides : List String) : PyClass :=
  ⟨n, List.filter (fun m => !(overrides.contains m)) parent.abstractMethods⟩

/-- Modelled from the spec: the observable behaviour of one invocation
of a skill's `execute` — it returns an output envelope after some amount
of time, raises a fault after some amount of time, or never completes.
Time is counted abstractly in the same units as the timeout. -/
inductive ExecBehavior where
  | returns : Nat → SkillOutput → ExecBehavior
  | faults : Nat → String → ExecBehavior
  | diverges : ExecBehavior

/-- Whether the behaviour completes (returns or faults) within `t` time
units. -/
def completesWithin : ExecBehavior → Nat → Bool
  | ExecBehavior.returns steps _, t => steps ≤ t
  | ExecBehavior.faults steps _, t => steps ≤ t
  | ExecBehavior.diverges, _ => false

/-- A skill implementation under the Skill Contract: metadata, a
declared input schema, and the `execute` operation taking one validated
input record. -/
structure Skill where
  name : String
  version : String
  description : String
  schema : List FieldSpec
  execute : List (String × Value) → ExecBehavior

/-- What the execution runtime hands back for one execution: the output
envelope, and whether a cancellation signal was issued to the in-flight
execution. -/
structure RunResult where
  out : SkillOutput
  cancelled : Bool
deriving DecidableEq, Repr

/-- Pre-execution failures of `run`, surfaced directly to the caller
rather than wrapped into an output envelope. -/
inductive RunError where
  | notFound : String → RunError
  | validation : ValidationError → RunError
deriving DecidableEq, Repr

/-- Modelled from the spec: steps 3–6 of the execution runtime.  Race
the skill's behaviour against the timeout: a normal return within the
deadline is forwarded unchanged; a fault within the deadline is caught
and converted into a `success:false` envelope carrying a descriptive
error; if the timeout elapses first (or the skill never completes), a
cancellation signal is issued and the `timeout` envelope is
synthesized. -/
def runExec (b : ExecBehavior) (timeout : Nat) : RunResult :=
  match b with
  | ExecBehavior.returns steps out =>
    if steps ≤ timeout then ⟨out, false⟩
    else ⟨⟨false, some "timeout"⟩, true⟩
  | ExecBehavior.faults steps msg =>
    if steps ≤ timeout then ⟨⟨false, some ("Skill execution failed: " ++ msg)⟩, false⟩
    else ⟨⟨false, some "timeout"⟩, true⟩
  | ExecBehavior.diverges => ⟨⟨false, some "timeout"⟩, true⟩

/-- Modelled from the spec: `run(name, rawInput, timeout)`.  Resolve the
skill in the registry (`NotFoundError` surfaces to the caller), validate
the raw input against the skill's declared schema (`ValidationError`
surfaces to the caller), then execute under the timeout discipline and
always produce an output envelope. -/
def run (reg : Registry Skill) (n : String) (raw : RawRecord) (timeout : Nat) :
    Except RunError RunResult :=
  match Registry.lookup reg n with
  | Except.error _ => Except.error (RunError.notFound n)
  | Except.ok sk =>
    match validateFields raw sk.schema with
    | Except.error e => Except.error (RunError.validation e)
    | Except.ok inp => Except.ok (runExec (sk.execute inp) timeout)

/-- `SKILL_REGISTRY` from `src/skills/__init__.py`: the process-wide
registry, bound to the empty dict `{}` at module initialization. -/
def SKILL_REGISTRY : Registry Skill := []

/-- A concrete skill whose `execute` always raises, used to instantiate
the fault-handling contract. -/
def faultySkill : Skill :=
  ⟨"skill_faulty", "1.0.0", "always raises", [], fun _ => ExecBehavior.faults 0 "boom"⟩

/-- A concrete skill whose `execute` never returns, used to instantiate
the timeout contract. -/
def slowSkill : Skill :=
  ⟨"skill_slow", "1.0.0", "never returns", [], fun _ => ExecBehavior.diverges⟩

/-- A concrete two-field demo schema in the style of the trend-fetcher
tests: a required non-empty string field followed by an optional
positive integer field with default 50. -/
def fieldPlatforms : FieldSpec :=
  ⟨"platforms", FieldType.tStr, true, Value.vStr "", fun v => !(v == Value.vStr "")⟩

/-- The optional `max_results` demo field. -/
def fieldMaxResults : FieldSpec :=
  ⟨"max_results", FieldType.tInt, false, Value.vInt 50,
    fun v => match v with | Value.vInt i => decide (0 < i) | _ => false⟩

/-- The demo schema: the two demo fields in declaration order. -/
def demoSchema : List FieldSpec := [fieldPlatforms, fieldMaxResults]

/-- Helper: a name absent from the listed names matches no binding. -/
theorem find?_eq_none_of_not_listed {α : Type} (r : Registry α) (n : String)
    (h : (Registry.listNames r).contains n = false) :
    List.find? (fun p => p.1 == n) r = none := by
  rw [List.find?_eq_none]
  intro p hp
  simp only [Registry.listNames, List.contains_eq_any_beq, List.any_eq_false] at h
  have h2 := h p.1 (List.mem_map_of_mem Prod.fst hp)
  simp only [beq_iff_eq] at h2 ⊢
  exact fun hq => h2 hq.symm

/-- Helper: a concatenation starting with a non-empty string is
non-empty. -/
theorem append_ne_empty_of_left (s t : String) (h : s.length ≠ 0) : (s ++ t) ≠ "" := by
  intro he
  have h2 : (s ++ t).length = 0 := by rw [he]; rfl
  rw [String.length_append] at h2
  omega

/-- C1: the claim states that every `SkillOutput` value satisfies the
success/error invariant.  The pydantic model does not enforce it:
`SkillOutput(success=False)` passes validation with `error = None`,
violating the "`success=false` implies non-empty `error`" half. -/
theorem skillOutput_invariant_not_enforced :
    SkillOutput.validate [("success", Value.vBool false)] =
      Except.ok { success := false, error := none } ∧
    outputInvariant { success := false, error := none } = false := by
  exact ⟨rfl, rfl⟩

/-- C1 (amended): `SkillOutput` constrains only the individual fields —
`success` any boolean, `error` any optional string defaulting to absent
— so validation accepts every combination of the two fields and the
success/error invariant is not enforced by the type. -/
theorem skillOutput_validate_accepts_all (b : Bool) (e : Option String) :
    SkillOutput.validate (rawOfOutput b e) = Except.ok ⟨b, e⟩ := by
  cases e <;> rfl

/-- C8: at module initialization `SKILL_REGISTRY` is the empty mapping:
the listing of registered names is empty and every lookup fails with
`NotFoundError`. -/
theorem skillRegistryStartsEmpty :
    Registry.listNames SKILL_REGISTRY = [] ∧
    ∀ n, Registry.lookup SKILL_REGISTRY n = Except.error (RegistryError.notFound n) :=
  ⟨rfl, fun _ => rfl⟩

/-- C9: the base `SkillInput` envelope declares no fields, so validation
of any raw record succeeds and every unknown key is discarded — the
validated record is empty. -/
theorem skillInputValidateAlwaysOk (raw : RawRecord) :
    SkillInput.validate raw = Except.ok [] := rfl

/-- C10: `BaseSkill` has the abstract method `execute`, so instantiating
it directly fails with a `TypeError`; a subclass of `BaseSkill` is
constructible exactly when it overrides `execute`. -/
theorem baseSkillIsAbstract :
    (∃ msg, instantiate BaseSkill = Except.error (PyError.typeError msg)) ∧
    (∀ n overrides, (instantiate (subclassOf BaseSkill n overrides)).isOk = true ↔
      overrides.contains "execute" = true) := by
  constructor
  · exact ⟨_, rfl⟩
  · intro n overrides
    by_cases h : "execute" ∈ overrides <;>
      simp [instantiate, subclassOf, BaseSkill, List.filter, h, Except.isOk, Except.toBool]

/-- Helper: appending a fresh binding makes it the one `lookup`
finds. -/
theorem lookup_append_fresh {α : Type} (r : Registry α) (n : String) (impl : α)
    (h : (Registry.listNames r).contains n = false) :
    Registry.lookup (r ++ [(n, impl)]) n = Except.ok impl := by
  unfold Registry.lookup
  rw [List.find?_append, find?_eq_none_of_not_listed r n h]
  simp

/-- C3: a `register` call with a name already present fails with
`DuplicateRegistrationError` and leaves the original mapping for that
name unchanged; a `register` call with a fresh name stores the mapping
(appended in registration order) and the new name resolves to the given
implementation. -/
theorem registerDuplicateFailsFreshStores {α : Type} (r : Registry α) (n : String) (impl : α) :
    ((Registry.listNames r).contains n = true →
      Registry.register r n impl = Except.error (RegistryError.duplicateRegistration n) ∧
      Registry.lookup (Registry.registerState r n impl) n = Registry.lookup r n) ∧
    ((Registry.listNames r).contains n = false →
      Registry.register r n impl = Except.ok (r ++ [(n, impl)]) ∧
      Registry.lookup (Registry.registerState r n impl) n = Except.ok impl) := by
  constructor
  · intro h
    have hmem : n ∈ Registry.listNames r := by simpa using h
    refine ⟨by simp [Registry.register, hmem], ?_⟩
    simp [Registry.registerState, Registry.register, hmem]
  · intro h
    have hnm : n ∉ Registry.listNames r := by simpa using h
    have hreg : Registry.register r n impl = Except.ok (r ++ [(n, impl)]) := by
      simp [Registry.register, hnm]
    refine ⟨hreg, ?_⟩
    have hst : Registry.registerState r n impl = r ++ [(n, impl)] := by
      simp [Registry.registerState, hreg]
    rw [hst]
    exact lookup_append_fresh r n impl h

/-- C3 witness: on the one-entry registry `{skill_echo}` a duplicate
registration of `skill_echo` fails and a fresh registration of
`skill_fetch` stores the mapping. -/
theorem registerDuplicateFailsFreshStores_witness :
    (Registry.register [("skill_echo", 0)] "skill_echo" 1 =
        Except.error (RegistryError.duplicateRegistration "skill_echo") ∧
      Registry.lookup (Registry.registerState [("skill_echo", 0)] "skill_echo" 1) "skill_echo" =
        Registry.lookup [("skill_echo", 0)] "skill_echo") ∧
    (Registry.register [("skill_echo", 0)] "skill_fetch" 2 =
        Except.ok [("skill_echo", 0), ("skill_fetch", 2)] ∧
      Registry.lookup (Registry.registerState [("skill_echo", 0)] "skill_fetch" 2) "skill_fetch" =
        Except.ok 2) :=
  ⟨(registerDuplicateFailsFreshStores [("skill_echo", 0)] "skill_echo" 1).1 (by decide),
   (registerDuplicateFailsFreshStores [("skill_echo", 0)] "skill_fetch" 2).2 (by decide)⟩

/-- Helper: in a registry with pairwise-distinct names, `find?` locates
exactly the stored binding of a registered name. -/
theorem find?_eq_some_of_nodup {α : Type} :
    ∀ (r : Registry α) (n : String) (impl : α),
      (Registry.listNames r).Nodup → (n, impl) ∈ r →
      List.find? (fun p => p.1 == n) r = some (n, impl) := by
  intro r
  induction r with
  | nil =>
    intro n impl _ hm
    exact absurd hm (List.not_mem_nil _)
  | cons q rest ih =>
    intro n impl hnd hm
    have hnames : Registry.listNames (q :: rest) = q.1 :: Registry.listNames rest := rfl
    rw [hnames] at hnd
    have hnd2 := List.nodup_cons.mp hnd
    rcases List.mem_cons.mp hm with he | hr
    · rw [← he]
      simp [List.find?]
    · have hne : q.1 ≠ n := by
        intro he2
        have hmem : n ∈ Registry.listNames rest := List.mem_map_of_mem Prod.fst hr
        rw [he2] at hnd2
        exact hnd2.1 hmem
      have hqf : (q.1 == n) = false := beq_eq_false_iff_ne.mpr hne
      simp only [List.find?, hqf]
      exact ih n impl hnd2.2 hr

/-- C4: `lookup` on a name absent from the registry fails with
`NotFoundError` (never a silent default); `lookup` on a registered name
returns the stored implementation. -/
theorem lookupAbsentFailsPresentReturns {α : Type} (r : Registry α) (n : String) (impl : α) :
    ((Registry.listNames r).contains n = false →
      Registry.lookup r n = Except.error (RegistryError.notFound n)) ∧
    ((Registry.listNames r).Nodup → (n, impl) ∈ r →
      Registry.lookup r n = Except.ok impl) := by
  constructor
  · intro h
    unfold Registry.lookup
    rw [find?_eq_none_of_not_listed r n h]
  · intro hnd hm
    unfold Registry.lookup
    rw [find?_eq_some_of_nodup r n impl hnd hm]

/-- C4 witness: on the registry `{skill_echo, skill_fetch}` lookup of
the absent `skill_gone` fails with `NotFoundError` and lookup of
`skill_fetch` returns its stored implementation. -/
theorem lookupAbsentFailsPresentReturns_witness :
    Registry.lookup [("skill_echo", 0), ("skill_fetch", 2)] "skill_gone" =
      Except.error (RegistryError.notFound "skill_gone") ∧
    Registry.lookup [("skill_echo", 0), ("skill_fetch", 2)] "skill_fetch" = Except.ok 2 :=
  ⟨(lookupAbsentFailsPresentReturns [("skill_echo", 0), ("skill_fetch", 2)] "skill_gone" 0).1
      (by decide),
   (lookupAbsentFailsPresentReturns [("skill_echo", 0), ("skill_fetch", 2)] "skill_fetch" 2).2
      (by decide) (by decide)⟩

/-- Helper: a successful sequence of `register` calls appends exactly
the called names, and preserves distinctness of the names. -/
theorem registerAll_names {α : Type} :
    ∀ (calls : List (String × α)) (r r2 : Registry α),
      registerAll r calls = some r2 →
      Registry.listNames r2 = Registry.listNames r ++ List.map Prod.fst calls ∧
      ((Registry.listNames r).Nodup → (Registry.listNames r2).Nodup) := by
  intro calls
  induction calls with
  | nil =>
    intro r r2 h
    simp only [registerAll, Option.some.injEq] at h
    subst h
    exact ⟨by simp, fun hh => hh⟩
  | cons c rest ih =>
    intro r r2 h
    obtain ⟨n, impl⟩ := c
    by_cases hc : n ∈ Registry.listNames r
    · exfalso
      simp [registerAll, Registry.register, hc] at h
    · have hreg : Registry.register r n impl = Except.ok (r ++ [(n, impl)]) := by
        simp [Registry.register, hc]
      have h2 : registerAll (r ++ [(n, impl)]) rest = some r2 := by
        simpa [registerAll, hreg] using h
      obtain ⟨ha, hb⟩ := ih (r ++ [(n, impl)]) r2 h2
      have hnames : Registry.listNames (r ++ [(n, impl)]) = Registry.listNames r ++ [n] := by
        simp [Registry.listNames]
      constructor
      · rw [ha, hnames]
        simp
      · intro hnd
        apply hb
        rw [hnames]
        simp [List.nodup_append, hnd, hc]

/-- C5: every registry state reached from the empty initial state by a
sequence of successful `register` calls lists exactly the registered
names, in registration order, with no duplicates. -/
theorem listNamesRegistrationOrderNodup {α : Type} (calls : List (String × α)) (r : Registry α)
    (h : registerAll [] calls = some r) :
    Registry.listNames r = List.map Prod.fst calls ∧ (Registry.listNames r).Nodup := by
  obtain ⟨ha, hb⟩ := registerAll_names calls [] r h
  refine ⟨by simpa using ha, hb ?_⟩
  simp [Registry.listNames]

/-- C5 witness: successfully registering `skill_a` then `skill_b` from
the empty registry lists exactly those two names in order, without
duplicates. -/
theorem listNamesRegistrationOrderNodup_witness :
    Registry.listNames [("skill_a", 0), ("skill_b", 1)] =
      List.map Prod.fst [("skill_a", 0), ("skill_b", 1)] ∧
    (Registry.listNames ([("skill_a", 0), ("skill_b", 1)] : Registry Nat)).Nodup :=
  listNamesRegistrationOrderNodup [("skill_a", 0), ("skill_b", 1)]
    [("skill_a", 0), ("skill_b", 1)] (by decide)

/-- C6: validation iterates declared fields in declaration order — an
absent required field fails with the missing-field error, an absent
optional field proceeds on its substituted default, the first failing
field determines the reported error (fail fast), and an input passing
every field's checks is accepted. -/
theorem validateFieldsDeclarationOrder (schema : List FieldSpec) (raw : RawRecord) (f : FieldSpec) :
    (lookupField raw f.name = none → f.required = true →
      checkField raw f = Except.error (ValidationError.missingRequired f.name)) ∧
    (lookupField raw f.name = none → f.required = false →
      checkField raw f = checkValue f f.dflt) ∧
    (∀ pre post e,
      (∀ g ∈ pre, (checkField raw g).isOk = true) →
      checkField raw f = Except.error e →
      validateFields raw (pre ++ f :: post) = Except.error e) ∧
    ((∀ g ∈ schema, (checkField raw g).isOk = true) →
      (validateFields raw schema).isOk = true) := by
  refine ⟨?_, ?_, ?_, ?_⟩
  · intro ha hr
    simp [checkField, resolveField, ha, hr]
  · intro ha hr
    simp [checkField, resolveField, ha, hr]
  · intro pre post e
    induction pre with
    | nil =>
      intro _ hf
      simp [validateFields, hf]
    | cons g pre2 ih =>
      intro hok hf
      have hg : (checkField raw g).isOk = true := hok g (by simp)
      obtain ⟨v, hv⟩ : ∃ v, checkField raw g = Except.ok v := by
        cases hgc : checkField raw g with
        | ok v => exact ⟨v, rfl⟩
        | error e2 => rw [hgc] at hg; simp [Except.isOk, Except.toBool] at hg
      have hrest := ih (fun g2 hg2 => hok g2 (List.mem_cons_of_mem g hg2)) hf
      have hrest2 : validateFields raw (pre2.append (f :: post)) = Except.error e := hrest
      simp only [List.cons_append, validateFields, hv, hrest, hrest2]
  · induction schema with
    | nil =>
      intro _
      simp [validateFields, Except.isOk, Except.toBool]
    | cons g rest ih =>
      intro hok
      have hg : (checkField raw g).isOk = true := hok g (by simp)
      obtain ⟨v, hv⟩ : ∃ v, checkField raw g = Except.ok v := by
        cases hgc : checkField raw g with
        | ok v => exact ⟨v, rfl⟩
        | error e2 => rw [hgc] at hg; simp [Except.isOk, Except.toBool] at hg
      have hrest := ih (fun g2 hg2 => hok g2 (List.mem_cons_of_mem g hg2))
      obtain ⟨vs, hvs⟩ : ∃ vs, validateFields raw rest = Except.ok vs := by
        cases hvc : validateFields raw rest with
        | ok vs => exact ⟨vs, rfl⟩
        | error e2 => rw [hvc] at hrest; simp [Except.isOk, Except.toBool] at hrest
      simp [validateFields, hv, hvs, Except.isOk, Except.toBool]

/-- C6 witness: on the demo schema, an input whose `platforms` field
passes and whose `max_results` value violates its positivity constraint
is rejected with exactly that first violated field reported. -/
theorem validateFieldsDeclarationOrder_witness :
    validateFields [("platforms", Value.vStr "yt"), ("max_results", Value.vInt 0)] demoSchema =
      Except.error (ValidationError.constraintViolated "max_results") :=
  (validateFieldsDeclarationOrder demoSchema
      [("platforms", Value.vStr "yt"), ("max_results", Value.vInt 0)] fieldMaxResults).2.2.1
    [fieldPlatforms] [] (ValidationError.constraintViolated "max_results")
    (by decide) rfl

/-- C2: when the resolved skill's `execute` raises a fault, `run` does
not propagate it: it returns an output envelope whose `success` is
false and whose `error` is a non-empty string. -/
theorem runConvertsExecuteFault (reg : Registry Skill) (n : String) (raw : RawRecord)
    (t : Nat) (sk : Skill) (inp : List (String × Value)) (steps : Nat) (msg : String)
    (hlk : Registry.lookup reg n = Except.ok sk)
    (hv : validateFields raw sk.schema = Except.ok inp)
    (hex : sk.execute inp = ExecBehavior.faults steps msg) :
    ∃ res, run reg n raw t = Except.ok res ∧ res.out.success = false ∧
      ∃ e, res.out.error = some e ∧ e ≠ "" := by
  refine ⟨runExec (sk.execute inp) t, ?_, ?_, ?_⟩
  · simp [run, hlk, hv]
  · rw [hex]
    simp only [runExec]
    by_cases hst : steps ≤ t <;> simp [hst]
  · rw [hex]
    simp only [runExec]
    by_cases hst : steps ≤ t
    · simp only [if_pos hst]
      exact ⟨_, rfl, append_ne_empty_of_left _ _ (by decide)⟩
    · simp only [if_neg hst]
      exact ⟨"timeout", rfl, by decide⟩

/-- C2 witness: running the always-raising `skill_faulty` yields a
`success = false` envelope with a non-empty error, not a propagated
fault. -/
theorem runConvertsExecuteFault_witness :
    ∃ res, run [("skill_faulty", faultySkill)] "skill_faulty" [] 10 = Except.ok res ∧
      res.out.success = false ∧ ∃ e, res.out.error = some e ∧ e ≠ "" :=
  runConvertsExecuteFault [("skill_faulty", faultySkill)] "skill_faulty" [] 10 faultySkill []
    0 "boom" rfl rfl rfl

/-- C7: when the resolved skill's execution does not complete before the
configured timeout, `run` issues the cancellation signal and returns the
`success = false`, `error = "timeout"` envelope. -/
theorem runTimeoutCancels (reg : Registry Skill) (n : String) (raw : RawRecord)
    (t : Nat) (sk : Skill) (inp : List (String × Value))
    (hlk : Registry.lookup reg n = Except.ok sk)
    (hv : validateFields raw sk.schema = Except.ok inp)
    (hnc : completesWithin (sk.execute inp) t = false) :
    run reg n raw t = Except.ok ⟨⟨false, some "timeout"⟩, true⟩ := by
  have hres : runExec (sk.execute inp) t = ⟨⟨false, some "timeout"⟩, true⟩ := by
    cases hb : sk.execute inp with
    | returns steps out =>
      rw [hb] at hnc
      simp only [completesWithin, decide_eq_false_iff_not] at hnc
      simp [runExec, hnc]
    | faults steps msg =>
      rw [hb] at hnc
      simp only [completesWithin, decide_eq_false_iff_not] at hnc
      simp [runExec, hnc]
    | diverges => simp [runExec]
  simp [run, hlk, hv, hres]

/-- C7 witness: running the never-returning `skill_slow` under a
timeout of 50 units yields the cancelled timeout envelope. -/
theorem runTimeoutCancels_witness :
    run [("skill_slow", slowSkill)] "skill_slow" [] 50 =
      Except.ok ⟨⟨false, some "timeout"⟩, true⟩ :=
  runTimeoutCancels [("skill_slow", slowSkill)] "skill_slow" [] 50 slowSkill [] rfl rfl rfl
